import Mathlib

/-!
Verification development for the `platform-os-tool` packaging pipeline.

The pipeline (`packageTool` and its earlier `buildTool` variant) validates a
project folder, stamps a revision into the manifest's version, compiles the
sources into a staging directory together with copied assets, zips the staging
directory into a publish folder, and removes the staging directory.

Machine-level side effects (filesystem, child processes) are embedded as
explicit state: a filesystem is an association list from paths to file data,
and the pipeline's control flow is a function from an environment (which paths
exist, how the compiler run ends, whether the copy and archive steps succeed)
to an outcome plus a trace of the mutations performed.
-/

namespace PlatformOsTool

/-- Embeds `path.join(a, b)` for the simple two-segment joins used by the tool. -/
def pathJoin (a b : String) : String := a ++ "/" ++ b

/-- Embeds JavaScript `String.prototype.split` with a single-character
separator, on the character list of the string: `"".split(sep)` is `[""]`,
and separators at the ends produce empty segments, exactly as in JS. -/
def splitOnChar (sep : Char) : List Char → List (List Char)
  | [] => [[]]
  | c :: cs =>
    match splitOnChar sep cs with
    | [] => [[]]
    | h :: t => if c = sep then [] :: h :: t else (c :: h) :: t

/-- Embeds `version.split(".")` (or any single-character split) at `String` level. -/
def jsSplit (s : String) (sep : Char) : List String :=
  (splitOnChar sep s.data).map String.mk

/-- Embeds the JavaScript array element assignment `xs[i] = v` as used before a
`join`: when `i` is in range the element is replaced; when it is out of range
the array is extended, and the holes created behave as empty strings under
`Array.prototype.join`. -/
def jsArraySet (xs : List String) (i : Nat) (v : String) : List String :=
  if i < xs.length then xs.set i v
  else xs ++ List.replicate (i - xs.length) "" ++ [v]

/-- Embeds the version-rewrite core of `prepareVersionedPackage`:
`versionParts = version.split("."); versionParts[2] = revision;
versionParts.join(".")`. -/
def stampVersion (version revision : String) : String :=
  String.intercalate "." (jsArraySet (jsSplit version '.') 2 revision)

/-- A manifest (`package.json` contents after `JSON.parse`) is embedded as an
association list of string keys to string values, in the file's key order. -/
abbrev Manifest := List (String × String)

/-- Embeds JavaScript property read `pkg[k]`: `none` models `undefined`. -/
def getField (m : Manifest) (k : String) : Option String :=
  (m.find? (fun kv => kv.1 == k)).map (fun kv => kv.2)

/-- Embeds the object spread `\x7b...pkg, version: v\x7d`: the value stored at the
key is replaced in place, all other keys and the key order are untouched. -/
def setField (m : Manifest) (k v : String) : Manifest :=
  m.map (fun kv => if kv.1 = k then (kv.1, v) else kv)

/-- Embeds the pure part of `prepareVersionedPackage`: read `pkg.version`
(`none` when the field is absent, where the JS code would throw on
`undefined.split`), stamp the revision into it, and rebuild the manifest. -/
def prepareManifest (m : Manifest) (revision : String) : Option Manifest :=
  (getField m "version").map (fun v => setField m "version" (stampVersion v revision))

/-- Embeds `JSON.stringify(pkg, null, "\t")` for a flat string-valued object:
tab-indented, one `"key": "value"` pair per line, in the object's key order. -/
def serializeManifest (m : Manifest) : String :=
  match m with
  | [] => "\x7b\x7d"
  | _ =>
    "\x7b\n"
      ++ String.intercalate ",\n"
          (m.map (fun kv => "\t\"" ++ kv.1 ++ "\": \"" ++ kv.2 ++ "\""))
      ++ "\n\x7d"

/-- Embeds `writePackage`: the serialized JSON followed by a trailing newline. -/
def writeManifestString (m : Manifest) : String :=
  serializeManifest m ++ "\n"

/-- Contents of a file in the embedded filesystem: plain text, or a zip archive
holding the (path, contents) entries that were streamed into it. -/
inductive FileData where
  | text (s : String)
  | zipArchive (entries : List (String × String))
deriving DecidableEq

/-- A filesystem is an association list from paths to file data; the binding
closest to the head is the current one. -/
abbrev FS := List (String × FileData)

/-- Reads the file at a path, `none` when absent. -/
def readFileFS (fs : FS) (p : String) : Option FileData :=
  (fs.find? (fun e => e.1 == p)).map (fun e => e.2)

/-- Embeds `fs.rm(p)`: removes every binding for the path. -/
def rmFS (fs : FS) (p : String) : FS :=
  fs.filter (fun e => !(e.1 == p))

/-- Embeds writing a file at a path, replacing any previous contents. -/
def writeFileFS (fs : FS) (p : String) (d : FileData) : FS :=
  (p, d) :: rmFS fs p

/-- Embeds the tool's `exists` helper (`fs.access` wrapped in try/catch). -/
def existsFS (fs : FS) (p : String) : Bool :=
  (fs.find? (fun e => e.1 == p)).isSome

/-- Embeds `prepareVersionedPackage` at filesystem level: stamp the already
parsed manifest, then write it to `join(tmpdir(), "package-<rand>.tmp")`
where `rand` stands for the `Math.random().toString(36).slice(2, 10)` part;
returns the new filesystem and the scratch path. `none` models the crash on a
manifest with no `version` field. -/
def prepareVersionedPackageFS (fs : FS) (pkg : Manifest) (tmpDir randName revision : String) :
    Option (FS × String) :=
  (prepareManifest pkg revision).map (fun m =>
    let outPath := pathJoin tmpDir ("package-" ++ randName ++ ".tmp")
    (writeFileFS fs outPath (.text (writeManifestString m)), outPath))

/-- Embeds `String.prototype.lastIndexOf` for a single character on the
character list of the string; `none` models the JS result `-1`. -/
def lastIndexOfChar : List Char → Char → Option Nat
  | [], _ => none
  | a :: as, c =>
    match lastIndexOfChar as c with
    | some i => some (i + 1)
    | none => if a = c then some 0 else none

/-- Embeds `createName`: base name of the project name after its last `/`
(`substring(slashIndex + 1)`), a dash, the version with every `.` replaced by
`_` (`replaceAll(".", "_")`, a single-character replacement, hence a map), and
the `.zip` suffix. -/
def createName (projectName projectVersion : String) : String :=
  let baseName :=
    match lastIndexOfChar projectName.data '/' with
    | some i => String.mk (projectName.data.drop (i + 1))
    | none => projectName
  baseName ++ "-" ++ String.mk (projectVersion.data.map (fun c => if c = '.' then '_' else c)) ++ ".zip"

/-- Embeds `bundle`: compute the destination path from the publish folder and
`createName`, delete any pre-existing file there, then write the zip of the
staging directory's entries; returns the new filesystem and the bundle path. -/
def bundleFS (fs : FS) (staging : List (String × String))
    (publishFolder projectName projectVersion : String) : FS × String :=
  let bundleFile := pathJoin publishFolder (createName projectName projectVersion)
  let fs1 := if existsFS fs bundleFile then rmFS fs bundleFile else fs
  (writeFileFS fs1 bundleFile (.zipArchive staging), bundleFile)

/-- Decimal digit to its character, as JS number formatting renders digits. -/
def digitToChar (d : Nat) : Char :=
  if d = 0 then '0' else if d = 1 then '1' else if d = 2 then '2'
  else if d = 3 then '3' else if d = 4 then '4' else if d = 5 then '5'
  else if d = 6 then '6' else if d = 7 then '7' else if d = 8 then '8' else '9'

/-- Inverse of `digitToChar` on decimal digit characters. -/
def charToDigit (c : Char) : Nat :=
  if c = '0' then 0 else if c = '1' then 1 else if c = '2' then 2
  else if c = '3' then 3 else if c = '4' then 4 else if c = '5' then 5
  else if c = '6' then 6 else if c = '7' then 7 else if c = '8' then 8 else 9

/-- Little-endian decimal digits of a natural number, with explicit fuel so the
recursion is structural; `natDecDigits` supplies enough fuel. -/
def natDigitsAux : Nat → Nat → List Nat
  | 0, _ => []
  | fuel + 1, n => if n = 0 then [] else n % 10 :: natDigitsAux fuel (n / 10)

/-- Little-endian decimal digits of a natural number (empty for zero). -/
def natDecDigits (n : Nat) : List Nat := natDigitsAux n n

/-- Recombines little-endian decimal digits into the number they denote. -/
def decDigitsToNat : List Nat → Nat
  | [] => 0
  | d :: ds => d + 10 * decDigitsToNat ds

/-- Embeds JavaScript number-to-string for a nonnegative integer: its decimal
digits, most significant first, and `"0"` for zero. -/
def natToDecStr (n : Nat) : String :=
  if n = 0 then "0" else String.mk ((natDecDigits n).map digitToChar).reverse

/-- Embeds JavaScript number-to-string for an integer: a leading `-` for
negative values, then the decimal digits of the absolute value. -/
def intToDecStr (i : Int) : String :=
  if i < 0 then "-" ++ natToDecStr i.natAbs else natToDecStr i.natAbs

/-- Decodes a decimal string back to a natural number; used only to establish
that `natToDecStr` is injective. -/
def decStrToNat (s : String) : Nat :=
  decDigitsToNat ((s.data.map charToDigit).reverse)

/-- Embeds `generateDevRevision`, with the current time `Date.now()` (integer
milliseconds since epoch) passed explicitly: the template literal
`${Math.floor(Date.now() / 10_000) - 175200000}-dev`. -/
def generateDevRevision (nowMs : Nat) : String :=
  intToDecStr ((nowMs / 10000 : Nat) - (175200000 : Int)) ++ "-dev"

/-- Environment of one pipeline run: the project folder argument, which of the
required paths exist, how the spawned compiler ends (`none` is the spawn
`error` event, `some code` the `close` event with that exit code), and whether
the concurrent copy operations and the archive stream succeed. -/
structure Env where
  projectFolder : String
  folderExists : Bool
  srcExists : Bool
  readmeExists : Bool
  packageExists : Bool
  compilerClose : Option Int
  copiesOk : Bool
  archiveOk : Bool
deriving DecidableEq

/-- How a run ends: normal completion, `process.exit(code)`, or an exception
propagating out of the async pipeline (a rejected promise / uncaught throw). -/
inductive Outcome where
  | ok
  | exited (code : Int)
  | raised
deriving DecidableEq

/-- Trace of the externally visible mutations and messages of one run.
`archiveCreated` means a completed archive was produced; terminal color codes
(`chalk`) are presentation only and not modeled, messages are kept plain. -/
structure Trace where
  messages : List String
  publishCreated : Bool
  scratchWritten : Bool
  stagingCreated : Bool
  stagingDeleted : Bool
  archiveCreated : Bool
deriving DecidableEq

/-- The all-false, no-message trace, before any mutation has happened. -/
def Trace.empty : Trace :=
  { messages := [], publishCreated := false, scratchWritten := false
    stagingCreated := false, stagingDeleted := false, archiveCreated := false }

/-- Embeds the control flow of `packageTool` (`src/commands/packageTool.ts`):
existence checks with early `process.exit(1)`, then the scratch manifest write,
publish-folder creation and staging-folder creation, then the compiler result
(`process.exit` on spawn error or non-zero close), then the concurrent copies
(their failure rejects `Promise.all`), then `bundle` (archive failure throws),
and only after a successful bundle the `fs.rm` of the staging folder. -/
def packageToolRun (env : Env) : Outcome × Trace :=
  if !env.folderExists then
    (.exited 1, { Trace.empty with
      messages := ["Project folder does not exist: " ++ env.projectFolder ++ "\n"] })
  else if !env.srcExists then
    (.exited 1, { Trace.empty with
      messages := ["Source folder does not exist: " ++ pathJoin env.projectFolder "src" ++ "\n"] })
  else if !env.readmeExists then
    (.exited 1, { Trace.empty with
      messages := ["Readme file does not exist: " ++ pathJoin env.projectFolder "README.md" ++ "\n"] })
  else if !env.packageExists then
    (.exited 1, { Trace.empty with
      messages := ["Package file does not exist: " ++ pathJoin env.projectFolder "package.json" ++ "\n"] })
  else
    let t := { Trace.empty with
      scratchWritten := true, publishCreated := true, stagingCreated := true }
    match env.compilerClose with
    | none => (.exited 1, t)
    | some code =>
      if code = 0 then
        if env.copiesOk then
          if env.archiveOk then
            (.ok, { t with archiveCreated := true, stagingDeleted := true })
          else (.raised, t)
        else (.raised, t)
      else (.exited code, t)

/-- Embeds the control flow of the earlier `buildTool` variant: existence
checks for folder, src and package (no readme), publish-folder and staging
creation, then `build` and `bundle` inside `try ... finally fs.rm(staging)`;
`execa` rejects on a non-zero or failed compiler spawn, so every failure path
raises after the `finally` has removed the staging folder. -/
def buildToolRun (env : Env) : Outcome × Trace :=
  if !env.folderExists then
    (.exited 1, { Trace.empty with
      messages := ["Project folder does not exist: " ++ env.projectFolder ++ "\n"] })
  else if !env.srcExists then
    (.exited 1, { Trace.empty with
      messages := ["Source folder does not exist: " ++ pathJoin env.projectFolder "src" ++ "\n"] })
  else if !env.packageExists then
    (.exited 1, { Trace.empty with
      messages := ["Package file does not exist: " ++ pathJoin env.projectFolder "package.json" ++ "\n"] })
  else
    let t := { Trace.empty with publishCreated := true, stagingCreated := true }
    if env.compilerClose ≠ some 0 ∨ !env.copiesOk then
      (.raised, { t with stagingDeleted := true })
    else if !env.archiveOk then
      (.raised, { t with stagingDeleted := true })
    else
      (.ok, { t with archiveCreated := true, stagingDeleted := true })

/-- Spec-side rendering of the archive base name, written from the spec's
words: "the part of the project name after its last `/` (the whole name if it
contains no `/`)". Returns `none` when the name has no slash. -/
def specSuffixAfterLastSlash : List Char → Option (List Char)
  | [] => none
  | c :: cs =>
    match specSuffixAfterLastSlash cs with
    | some r => some r
    | none => if c = '/' then some cs else none

/-- Spec-side archive name, written from the spec's words: base name after the
last slash (whole name without one), a dash, the version with every `.`
replaced by `_`, and the `.zip` suffix. Compared with the source-derived
`createName` in the refinement theorem for the archive-name claim. -/
def createNameSpec (projectName projectVersion : String) : String :=
  (match specSuffixAfterLastSlash projectName.data with
   | some r => String.mk r
   | none => projectName)
  ++ "-" ++ String.mk (projectVersion.data.map (fun c => if c = '.' then '_' else c)) ++ ".zip"

/-! ### Helper lemmas -/

theorem decDigitsToNat_natDigitsAux (fuel : Nat) :
    ∀ n, n ≤ fuel → decDigitsToNat (natDigitsAux fuel n) = n := by
  induction fuel with
  | zero => intro n h; interval_cases n; rfl
  | succ fuel ih =>
    intro n h
    by_cases hn : n = 0
    · simp [natDigitsAux, hn, decDigitsToNat]
    · have hdiv : n / 10 ≤ fuel := by
        have : n / 10 < n := Nat.div_lt_self (Nat.pos_of_ne_zero hn) (by norm_num)
        omega
      simp only [natDigitsAux, hn, if_false, decDigitsToNat, ih _ hdiv]
      omega

theorem mem_natDigitsAux_lt (fuel : Nat) :
    ∀ n d, d ∈ natDigitsAux fuel n → d < 10 := by
  induction fuel with
  | zero => intro n d h; simp [natDigitsAux] at h
  | succ fuel ih =>
    intro n d h
    by_cases hn : n = 0
    · simp [natDigitsAux, hn] at h
    · simp only [natDigitsAux, hn, if_false, List.mem_cons] at h
      rcases h with h | h
      · subst h; exact Nat.mod_lt _ (by norm_num)
      · exact ih _ _ h

theorem charToDigit_digitToChar : ∀ d, d < 10 → charToDigit (digitToChar d) = d := by decide

theorem digitToChar_ne_dash (d : Nat) : digitToChar d ≠ '-' := by
  unfold digitToChar; split_ifs <;> decide

theorem decStrToNat_natToDecStr (n : Nat) : decStrToNat (natToDecStr n) = n := by
  by_cases hn : n = 0
  · subst hn; decide
  · have hmap : (natDecDigits n).map (fun d => charToDigit (digitToChar d)) = natDecDigits n := by
      have h1 : (natDecDigits n).map (fun d => charToDigit (digitToChar d))
          = (natDecDigits n).map id := by
        refine List.map_congr_left (fun d hd => ?_)
        exact charToDigit_digitToChar d (mem_natDigitsAux_lt n n d hd)
      rw [h1, List.map_id]
    simp only [natToDecStr, hn, if_false, decStrToNat]
    simp only [List.map_reverse, List.reverse_reverse, List.map_map, Function.comp_def]
    rw [hmap]
    exact decDigitsToNat_natDigitsAux n n (Nat.le_refl n)

theorem natToDecStr_injective : Function.Injective natToDecStr :=
  Function.LeftInverse.injective decStrToNat_natToDecStr

theorem natToDecStr_no_dash (n : Nat) : ∀ c ∈ (natToDecStr n).data, c ≠ '-' := by
  by_cases hn : n = 0
  · subst hn; decide
  · intro c hc
    simp only [natToDecStr, hn, if_false, List.mem_reverse, List.mem_map] at hc
    obtain ⟨d, _, hd⟩ := hc
    exact hd ▸ digitToChar_ne_dash d

theorem intToDecStr_injective : Function.Injective intToDecStr := by
  intro i j h
  unfold intToDecStr at h
  by_cases hi : i < 0 <;> by_cases hj : j < 0
  · simp only [hi, hj, if_true] at h
    have hd := congrArg String.data h
    simp only [String.data_append] at hd
    have := natToDecStr_injective (String.ext (List.append_cancel_left hd))
    omega
  · simp only [hi, hj, if_true, if_false] at h
    exfalso
    have hd := congrArg String.data h
    simp only [String.data_append] at hd
    have hmem : '-' ∈ (natToDecStr j.natAbs).data := by
      rw [← hd]; simp
    exact natToDecStr_no_dash j.natAbs '-' hmem rfl
  · simp only [hi, hj, if_true, if_false] at h
    exfalso
    have hd := congrArg String.data h.symm
    simp only [String.data_append] at hd
    have hmem : '-' ∈ (natToDecStr i.natAbs).data := by
      rw [← hd]; simp
    exact natToDecStr_no_dash i.natAbs '-' hmem rfl
  · simp only [hi, hj, if_false] at h
    have := natToDecStr_injective h
    omega

theorem string_append_cancel_right {a b c : String} (h : a ++ c = b ++ c) : a = b := by
  have hd := congrArg String.data h
  simp only [String.data_append] at hd
  exact String.ext (List.append_cancel_right hd)

theorem getField_setField_self (m : Manifest) (k v : String) :
    getField (setField m k v) k = (getField m k).map (fun _ => v) := by
  induction m with
  | nil => rfl
  | cons kv m ih =>
    obtain ⟨a, b⟩ := kv
    by_cases h : a = k
    · simp only [getField, setField, List.map_cons, if_pos h]
      rw [List.find?_cons_of_pos _ (by simp [h]), List.find?_cons_of_pos _ (by simp [h])]
      rfl
    · simp only [getField, setField, List.map_cons, if_neg h]
      rw [List.find?_cons_of_neg _ (by simp [h]), List.find?_cons_of_neg _ (by simp [h])]
      exact ih

theorem getField_setField_other (m : Manifest) (k v k' : String) (h : k' ≠ k) :
    getField (setField m k v) k' = getField m k' := by
  induction m with
  | nil => rfl
  | cons kv m ih =>
    obtain ⟨a, b⟩ := kv
    by_cases hq : a = k'
    · have hk : a ≠ k := fun hak => h (hq ▸ hak)
      simp only [getField, setField, List.map_cons, if_neg hk]
      rw [List.find?_cons_of_pos _ (by simp [hq]), List.find?_cons_of_pos _ (by simp [hq])]
    · by_cases hk : a = k
      · simp only [getField, setField, List.map_cons, if_pos hk]
        rw [List.find?_cons_of_neg _ (by simp [hq]), List.find?_cons_of_neg _ (by simp [hq])]
        exact ih
      · simp only [getField, setField, List.map_cons, if_neg hk]
        rw [List.find?_cons_of_neg _ (by simp [hq]), List.find?_cons_of_neg _ (by simp [hq])]
        exact ih

theorem readFileFS_rmFS_other (fs : FS) (p q : String) (h : q ≠ p) :
    readFileFS (rmFS fs p) q = readFileFS fs q := by
  induction fs with
  | nil => rfl
  | cons e fs ih =>
    obtain ⟨a, b⟩ := e
    by_cases hp : a = p
    · have hq : a ≠ q := fun haq => h (haq.symm.trans hp)
      simp only [readFileFS, rmFS, List.filter_cons]
      rw [if_neg (by simp [hp])]
      rw [List.find?_cons_of_neg _ (by simp [hq])]
      exact ih
    · simp only [readFileFS, rmFS, List.filter_cons]
      rw [if_pos (by simp [hp])]
      by_cases hq : a = q
      · rw [List.find?_cons_of_pos _ (by simp [hq]), List.find?_cons_of_pos _ (by simp [hq])]
      · rw [List.find?_cons_of_neg _ (by simp [hq]), List.find?_cons_of_neg _ (by simp [hq])]
        exact ih

theorem readFileFS_writeFileFS_self (fs : FS) (p : String) (d : FileData) :
    readFileFS (writeFileFS fs p d) p = some d := by
  simp [readFileFS, writeFileFS, List.find?]

theorem readFileFS_writeFileFS_other (fs : FS) (p q : String) (d : FileData) (h : q ≠ p) :
    readFileFS (writeFileFS fs p d) q = readFileFS fs q := by
  have hb : (p == q) = false := beq_eq_false_iff_ne.mpr (Ne.symm h)
  simp only [readFileFS, writeFileFS, List.find?, hb]
  exact readFileFS_rmFS_other fs p q h

theorem getLast?_append_right {l1 l2 : List Char} (h : l2 ≠ []) :
    (l1 ++ l2).getLast? = l2.getLast? := by
  rw [List.getLast?_eq_head?_reverse, List.reverse_append, List.head?_append_of_ne_nil]
  · exact (List.getLast?_eq_head?_reverse).symm
  · simpa using h

theorem strLast_append (s t : String) (h : t.data ≠ []) :
    (s ++ t).data.getLast? = t.data.getLast? := by
  rw [String.data_append]; exact getLast?_append_right h

theorem pathJoin_manifest_ne_scratch (folder tmpDir randName : String) :
    pathJoin folder "package.json" ≠ pathJoin tmpDir ("package-" ++ randName ++ ".tmp") := by
  intro h
  have h1 : (pathJoin folder "package.json").data.getLast? = some 'n' := by
    unfold pathJoin
    rw [strLast_append (folder ++ "/") "package.json" (by decide)]
    decide
  have h2 : (pathJoin tmpDir ("package-" ++ randName ++ ".tmp")).data.getLast? = some 'p' := by
    have hne : ("package-" ++ randName ++ ".tmp").data ≠ [] := by
      intro hx
      have hlen := congrArg List.length hx
      simp [String.data_append] at hlen
    unfold pathJoin
    rw [strLast_append (tmpDir ++ "/") ("package-" ++ randName ++ ".tmp") hne]
    rw [strLast_append ("package-" ++ randName) ".tmp" (by decide)]
    decide
  rw [h, h2] at h1
  exact absurd h1 (by decide)

theorem intercalate_go_eq_foldl (s : String) :
    ∀ (l : List String) (acc : String),
      String.intercalate.go acc s l = l.foldl (fun r a => r ++ s ++ a) acc := by
  intro l
  induction l with
  | nil => intro acc; rfl
  | cons a as ih => intro acc; simp only [String.intercalate.go, List.foldl_cons]; exact ih _

theorem foldl_appendSep_out (s : String) :
    ∀ (l : List String) (p q : String),
      l.foldl (fun r a => r ++ s ++ a) (p ++ q) = p ++ l.foldl (fun r a => r ++ s ++ a) q := by
  intro l
  induction l with
  | nil => intro p q; rfl
  | cons a as ih =>
    intro p q
    have hacc : p ++ q ++ s ++ a = p ++ (q ++ s ++ a) := by
      rw [String.append_assoc p q s, String.append_assoc p (q ++ s) a]
    rw [List.foldl_cons, List.foldl_cons, hacc, ih]

theorem intercalate_cons_of_ne_nil (s a : String) {l : List String} (h : l ≠ []) :
    String.intercalate s (a :: l) = a ++ s ++ String.intercalate s l := by
  match l, h with
  | b :: bs, _ =>
    show String.intercalate.go a s (b :: bs) = a ++ s ++ String.intercalate.go b s bs
    rw [intercalate_go_eq_foldl, intercalate_go_eq_foldl, List.foldl_cons,
      foldl_appendSep_out]

theorem intercalate_three (x y r : String) :
    String.intercalate "." [x, y, r] = x ++ "." ++ y ++ "." ++ r := by
  simp [String.intercalate, String.intercalate.go]

theorem specSuffixAfterLastSlash_eq (cs : List Char) :
    specSuffixAfterLastSlash cs = (lastIndexOfChar cs '/').map (fun i => cs.drop (i + 1)) := by
  induction cs with
  | nil => rfl
  | cons a as ih =>
    simp only [specSuffixAfterLastSlash, lastIndexOfChar, ih]
    cases h : lastIndexOfChar as '/' with
    | some i => simp
    | none =>
      by_cases ha : a = '/'
      · simp [ha]
      · simp [ha]

theorem jsArraySet_three (x y z r : String) : jsArraySet [x, y, z] 2 r = [x, y, r] := by
  unfold jsArraySet
  rw [if_pos (by simp)]
  rfl

theorem jsArraySet_cons3 (x y z r : String) (rest : List String) :
    jsArraySet (x :: y :: z :: rest) 2 r = x :: y :: r :: rest := by
  unfold jsArraySet
  rw [if_pos (by simp)]
  rfl

theorem bundleFS_eq (fs : FS) (staging : List (String × String)) (pf n v : String) :
    bundleFS fs staging pf n v
      = (writeFileFS
          (if existsFS fs (pathJoin pf (createName n v)) then rmFS fs (pathJoin pf (createName n v))
           else fs)
          (pathJoin pf (createName n v)) (.zipArchive staging),
         pathJoin pf (createName n v)) := rfl

/-! ### Claim theorems -/

/-- C1: for every manifest whose `version` field splits into exactly three
dot-separated parts `[x, y, z]` and every revision `r`, the version-stamping
step produces a prepared manifest whose version is `x.y.r` — the first two
parts preserved unchanged and the third replaced verbatim by `r` — with every
other manifest key unchanged, and writes the scratch file as the tab-indented
pretty-printed JSON of the prepared manifest followed by a trailing newline. -/
theorem C1_version_stamping (pkg : Manifest) (revision v x y z : String)
    (hv : getField pkg "version" = some v)
    (hsplit : jsSplit v '.' = [x, y, z]) :
    ∃ m', prepareManifest pkg revision = some m'
      ∧ getField m' "version" = some (x ++ "." ++ y ++ "." ++ revision)
      ∧ (∀ k, k ≠ "version" → getField m' k = getField pkg k)
      ∧ ∀ fs tmpDir randName, ∃ fs' outPath,
          prepareVersionedPackageFS fs pkg tmpDir randName revision = some (fs', outPath)
          ∧ readFileFS fs' outPath = some (.text (serializeManifest m' ++ "\n")) := by
  have hstamp : stampVersion v revision = x ++ "." ++ y ++ "." ++ revision := by
    unfold stampVersion
    rw [hsplit, jsArraySet_three, intercalate_three]
  refine ⟨setField pkg "version" (stampVersion v revision), ?_, ?_, ?_, ?_⟩
  · simp [prepareManifest, hv]
  · rw [getField_setField_self, hv, hstamp]; rfl
  · intro k hk; exact getField_setField_other pkg "version" _ k hk
  · intro fs tmpDir randName
    refine ⟨writeFileFS fs (pathJoin tmpDir ("package-" ++ randName ++ ".tmp"))
        (.text (writeManifestString (setField pkg "version" (stampVersion v revision)))),
      pathJoin tmpDir ("package-" ++ randName ++ ".tmp"), ?_, ?_⟩
    · simp [prepareVersionedPackageFS, prepareManifest, hv]
    · rw [readFileFS_writeFileFS_self]; rfl

/-- C1 witness: concrete instance with version `"1.0.0"` and revision `"7-dev"`. -/
theorem C1_version_stamping_witness :
    getField [("name", "demo"), ("version", "1.0.0")] "version" = some "1.0.0"
    ∧ jsSplit "1.0.0" '.' = ["1", "0", "0"]
    ∧ ∃ m', prepareManifest [("name", "demo"), ("version", "1.0.0")] "7-dev" = some m'
        ∧ getField m' "version" = some ("1" ++ "." ++ "0" ++ "." ++ "7-dev")
        ∧ (∀ k, k ≠ "version" → getField m' k = getField [("name", "demo"), ("version", "1.0.0")] k)
        ∧ ∀ fs tmpDir randName, ∃ fs' outPath,
            prepareVersionedPackageFS fs [("name", "demo"), ("version", "1.0.0")]
                tmpDir randName "7-dev" = some (fs', outPath)
            ∧ readFileFS fs' outPath = some (.text (serializeManifest m' ++ "\n")) :=
  ⟨by decide, by decide,
    C1_version_stamping [("name", "demo"), ("version", "1.0.0")] "7-dev" "1.0.0" "1" "0" "0"
      (by decide) (by decide)⟩

/-- C5: the archive file name computed by `createName` (via `lastIndexOf` and
`substring`) is exactly what the spec states: the part of the project name
after its last `/` (the whole name when there is no slash), a dash, the
version with every `.` replaced by `_`, and the `.zip` suffix. -/
theorem C5_archive_name (projectName projectVersion : String) :
    createName projectName projectVersion = createNameSpec projectName projectVersion := by
  unfold createName createNameSpec
  rw [specSuffixAfterLastSlash_eq]
  cases h : lastIndexOfChar projectName.data '/' <;> simp

/-- C6: bundling writes the zip of the staging contents at the computed bundle
path, deleting any pre-existing file there first rather than failing or
appending: a first run over arbitrary pre-existing state yields exactly the
first staging contents, and a second run against the same publish folder and
name yields exactly the second staging contents. -/
theorem C6_overwrite (fs : FS) (staging1 staging2 : List (String × String))
    (publishFolder projectName projectVersion : String) :
    (bundleFS fs staging1 publishFolder projectName projectVersion).2
        = pathJoin publishFolder (createName projectName projectVersion)
    ∧ readFileFS (bundleFS fs staging1 publishFolder projectName projectVersion).1
        (bundleFS fs staging1 publishFolder projectName projectVersion).2
        = some (.zipArchive staging1)
    ∧ readFileFS
        (bundleFS (bundleFS fs staging1 publishFolder projectName projectVersion).1
          staging2 publishFolder projectName projectVersion).1
        (bundleFS fs staging1 publishFolder projectName projectVersion).2
        = some (.zipArchive staging2) := by
  simp only [bundleFS_eq]
  exact ⟨trivial, readFileFS_writeFileFS_self _ _ _, readFileFS_writeFileFS_self _ _ _⟩

/-- C7 counterexample: on a manifest whose version has only two dot-separated
segments the stamping step does not fail with any error — it succeeds and
produces a stamped manifest, contradicting the claim that a
`ManifestShapeError` is raised instead. -/
theorem C7_counterexample :
    prepareManifest [("name", "demo"), ("version", "1.2")] "7-dev"
      = some [("name", "demo"), ("version", "1.2.7-dev")] := by decide

/-- C7 (amended): when the version has fewer than three dot-separated
segments, the stamping step still succeeds: the JavaScript array assignment
`versionParts[2] = revision` extends the array, so the stamped version is the
original segments, then `2 - parts.length` empty segments, then the revision
(two segments give `X.Y.r`; one segment gives `X..r`). -/
theorem C7_amended_short_version (v r : String) (parts : List String)
    (hsplit : jsSplit v '.' = parts) (hlen : parts.length < 3) :
    stampVersion v r
      = String.intercalate "." (parts ++ List.replicate (2 - parts.length) "" ++ [r]) := by
  unfold stampVersion
  rw [hsplit]
  unfold jsArraySet
  rw [if_neg (by omega)]

/-- C7 witness: the two-segment version `"1.2"` is stamped to `"1.2.7-dev"`. -/
theorem C7_amended_short_version_witness :
    jsSplit "1.2" '.' = ["1", "2"]
    ∧ (["1", "2"] : List String).length < 3
    ∧ stampVersion "1.2" "7-dev"
        = String.intercalate "." (["1", "2"] ++ List.replicate (2 - (["1", "2"] : List String).length) "" ++ ["7-dev"]) :=
  ⟨by decide, by decide,
    C7_amended_short_version "1.2" "7-dev" ["1", "2"] (by decide) (by decide)⟩

/-- C9: the version-stamping step writes only to the freshly named scratch
file under the system temp directory — the returned path is
`join(tmpDir, "package-<rand>.tmp")`, every other path is untouched, and in
particular any original `<folder>/package.json` manifest is left unchanged. -/
theorem C9_scratch_only (fs : FS) (pkg : Manifest) (tmpDir randName revision : String)
    (fs' : FS) (outPath : String)
    (h : prepareVersionedPackageFS fs pkg tmpDir randName revision = some (fs', outPath)) :
    outPath = pathJoin tmpDir ("package-" ++ randName ++ ".tmp")
    ∧ (∀ p, p ≠ outPath → readFileFS fs' p = readFileFS fs p)
    ∧ (∀ folder, readFileFS fs' (pathJoin folder "package.json")
        = readFileFS fs (pathJoin folder "package.json")) := by
  unfold prepareVersionedPackageFS at h
  cases hm : prepareManifest pkg revision with
  | none => rw [hm] at h; simp at h
  | some m =>
    rw [hm] at h
    simp only [Option.map_some'] at h
    have h2 := Option.some.inj h
    have hfs : writeFileFS fs (pathJoin tmpDir ("package-" ++ randName ++ ".tmp"))
        (.text (writeManifestString m)) = fs' := congrArg Prod.fst h2
    have hout : pathJoin tmpDir ("package-" ++ randName ++ ".tmp") = outPath :=
      congrArg Prod.snd h2
    subst hfs
    subst hout
    refine ⟨rfl, ?_, ?_⟩
    · intro p hp
      exact readFileFS_writeFileFS_other fs _ p _ hp
    · intro folder
      exact readFileFS_writeFileFS_other fs _ _ _ (pathJoin_manifest_ne_scratch folder tmpDir randName)

/-- C9 witness: a concrete stamping run writes only `/tmp/package-abc.tmp` and
leaves the original `/home/package.json` unchanged. -/
theorem C9_scratch_only_witness :
    prepareVersionedPackageFS [("/home/package.json", .text "orig")] [("version", "1.0.0")]
        "/tmp" "abc" "9-dev"
      = some ([("/tmp/package-abc.tmp", .text "\x7b\n\t\"version\": \"1.0.9-dev\"\n\x7d\n"),
               ("/home/package.json", .text "orig")], "/tmp/package-abc.tmp")
    ∧ readFileFS [("/tmp/package-abc.tmp", FileData.text "\x7b\n\t\"version\": \"1.0.9-dev\"\n\x7d\n"),
          ("/home/package.json", FileData.text "orig")] (pathJoin "/home" "package.json")
        = readFileFS [("/home/package.json", FileData.text "orig")] (pathJoin "/home" "package.json") :=
  ⟨by decide,
    (C9_scratch_only [("/home/package.json", .text "orig")] [("version", "1.0.0")]
      "/tmp" "abc" "9-dev"
      [("/tmp/package-abc.tmp", FileData.text "\x7b\n\t\"version\": \"1.0.9-dev\"\n\x7d\n"),
       ("/home/package.json", FileData.text "orig")]
      "/tmp/package-abc.tmp" (by decide)).2.2 "/home"⟩

/-- C10: for a version with more than three dot-separated segments the
stamping step succeeds and replaces only the third segment, preserving every
segment after the third unchanged (e.g. `1.2.3.4` with revision `r` becomes
`1.2.r.4`), rather than truncating or failing. -/
theorem C10_extra_segments (v r x y z : String) (rest : List String)
    (hsplit : jsSplit v '.' = x :: y :: z :: rest) (hrest : rest ≠ []) :
    stampVersion v r
      = x ++ "." ++ y ++ "." ++ r ++ "." ++ String.intercalate "." rest := by
  unfold stampVersion
  rw [hsplit, jsArraySet_cons3]
  rw [intercalate_cons_of_ne_nil "." x (by simp),
    intercalate_cons_of_ne_nil "." y (by simp [hrest]),
    intercalate_cons_of_ne_nil "." r hrest]
  simp [String.append_assoc]

/-- C10 witness: `"1.2.3.4"` with revision `"9-dev"` becomes `"1.2.9-dev.4"`. -/
theorem C10_extra_segments_witness :
    jsSplit "1.2.3.4" '.' = ["1", "2", "3", "4"]
    ∧ stampVersion "1.2.3.4" "9-dev"
        = "1" ++ "." ++ "2" ++ "." ++ "9-dev" ++ "." ++ String.intercalate "." ["4"] :=
  ⟨by decide,
    C10_extra_segments "1.2.3.4" "9-dev" "1" "2" "3" ["4"] (by decide) (by decide)⟩

/-- C2: with every required path present and every concurrent copy operation
succeeding, a compiler close event with non-zero exit code makes the pipeline
terminate via `process.exit` with exactly that code; the staging build never
resolves into the archive step, so no archive is produced. -/
theorem C2_compiler_failure (env : Env) (code : Int)
    (hf : env.folderExists = true) (hs : env.srcExists = true)
    (hr : env.readmeExists = true) (hp : env.packageExists = true)
    (hc : env.compilerClose = some code) (hnz : code ≠ 0)
    (_hcopies : env.copiesOk = true) :
    (packageToolRun env).1 = .exited code
    ∧ (packageToolRun env).2.archiveCreated = false := by
  unfold packageToolRun
  rw [hf, hs, hr, hp, hc]
  simp [hnz, Trace.empty]

/-- C2 witness: a concrete run in which the compiler exits with status 2. -/
theorem C2_compiler_failure_witness :
    (packageToolRun (Env.mk "p" true true true true (some 2) true true)).1 = .exited 2
    ∧ (packageToolRun (Env.mk "p" true true true true (some 2) true true)).2.archiveCreated
        = false :=
  C2_compiler_failure (Env.mk "p" true true true true (some 2) true true) 2
    rfl rfl rfl rfl rfl (by decide) rfl

/-- C3 counterexample: in `packageTool`, a run whose archive step fails ends
with the staging directory created but never deleted — `fs.rm` runs only after
a successful bundle, so the claimed on-every-exit-path cleanup does not hold. -/
theorem C3_counterexample :
    (packageToolRun (Env.mk "proj" true true true true (some 0) true false)).1 = .raised
    ∧ (packageToolRun (Env.mk "proj" true true true true (some 0) true false)).2.stagingCreated
        = true
    ∧ (packageToolRun (Env.mk "proj" true true true true (some 0) true false)).2.stagingDeleted
        = false := by
  decide

/-- C3 (amended): staging-directory cleanup depends on the variant. The
`buildTool` variant wraps build and bundle in try/finally, so whenever the
staging directory was created it is deleted before the run ends, on every exit
path. The `packageTool` variant deletes it only when the whole run succeeds:
on compiler, copy, or archive failure the staging directory is left behind. -/
theorem C3_amended_staging_cleanup (env : Env) :
    ((buildToolRun env).2.stagingCreated = true → (buildToolRun env).2.stagingDeleted = true)
    ∧ ((packageToolRun env).2.stagingDeleted = true ↔ (packageToolRun env).1 = .ok) := by
  obtain ⟨pf, f, s, r, p, c, cp, a⟩ := env
  constructor
  · intro h
    unfold buildToolRun at h ⊢
    cases f <;> cases s <;> cases p <;> simp_all [Trace.empty]
    all_goals split_ifs <;> rfl
  · unfold packageToolRun
    cases f <;> cases s <;> cases r <;> cases p <;> simp [Trace.empty]
    cases c with
    | none => simp
    | some code =>
      by_cases hcode : code = 0
      · subst hcode
        cases cp <;> cases a <;> simp
      · simp [hcode]

/-- C3 witness: in the amended statement's first part, an archive-failing
`buildTool` run still deletes its staging directory, and in the second part a
fully successful `packageTool` run deletes it. -/
theorem C3_amended_staging_cleanup_witness :
    (buildToolRun (Env.mk "p" true true true true (some 0) true false)).2.stagingDeleted = true
    ∧ (packageToolRun (Env.mk "p" true true true true (some 0) true true)).2.stagingDeleted
        = true :=
  ⟨(C3_amended_staging_cleanup (Env.mk "p" true true true true (some 0) true false)).1
      (by decide),
    (C3_amended_staging_cleanup (Env.mk "p" true true true true (some 0) true true)).2.mpr
      (by decide)⟩

/-- C4: when any required input path (project folder, `src/`, `README.md`,
`package.json`) is missing, `packageTool` exits with status 1 before any
filesystem mutation — no publish directory, no scratch manifest, no staging
directory, no archive — and its single message names the first missing path. -/
theorem C4_missing_path (env : Env)
    (h : env.folderExists = false ∨ env.srcExists = false ∨ env.readmeExists = false
      ∨ env.packageExists = false) :
    (packageToolRun env).1 = .exited 1
    ∧ (packageToolRun env).2.publishCreated = false
    ∧ (packageToolRun env).2.scratchWritten = false
    ∧ (packageToolRun env).2.stagingCreated = false
    ∧ (packageToolRun env).2.archiveCreated = false
    ∧ ((env.folderExists = false
          ∧ (packageToolRun env).2.messages
            = ["Project folder does not exist: " ++ env.projectFolder ++ "\n"])
      ∨ (env.folderExists = true ∧ env.srcExists = false
          ∧ (packageToolRun env).2.messages
            = ["Source folder does not exist: " ++ pathJoin env.projectFolder "src" ++ "\n"])
      ∨ (env.folderExists = true ∧ env.srcExists = true ∧ env.readmeExists = false
          ∧ (packageToolRun env).2.messages
            = ["Readme file does not exist: " ++ pathJoin env.projectFolder "README.md" ++ "\n"])
      ∨ (env.folderExists = true ∧ env.srcExists = true ∧ env.readmeExists = true
          ∧ env.packageExists = false
          ∧ (packageToolRun env).2.messages
            = ["Package file does not exist: " ++ pathJoin env.projectFolder "package.json" ++ "\n"])) := by
  obtain ⟨pf, f, s, r, p, c, cp, a⟩ := env
  cases f <;> cases s <;> cases r <;> cases p <;>
    simp_all [packageToolRun, Trace.empty]

/-- C4 witness: a run against a folder lacking `src/` exits 1 and writes no
scratch manifest. -/
theorem C4_missing_path_witness :
    (packageToolRun (Env.mk "p" true false true true (some 0) true true)).1 = .exited 1
    ∧ (packageToolRun (Env.mk "p" true false true true (some 0) true true)).2.scratchWritten
        = false :=
  ⟨(C4_missing_path (Env.mk "p" true false true true (some 0) true true) (by decide)).1,
    (C4_missing_path (Env.mk "p" true false true true (some 0) true true) (by decide)).2.2.1⟩

/-- C8: the generated development revision is the decimal rendering of
`floor(nowMs / 10000) - 175200000` suffixed with `-dev`; two generation times
in the same 10-second tick yield the same string, and times at least 10
seconds apart yield different strings. -/
theorem C8_dev_revision (t1 t2 : Nat) :
    generateDevRevision t1 = intToDecStr (((t1 / 10000 : Nat) : Int) - 175200000) ++ "-dev"
    ∧ (t1 / 10000 = t2 / 10000 → generateDevRevision t1 = generateDevRevision t2)
    ∧ (t1 + 10000 ≤ t2 → generateDevRevision t1 ≠ generateDevRevision t2) := by
  refine ⟨rfl, ?_, ?_⟩
  · intro h
    unfold generateDevRevision
    rw [h]
  · intro h heq
    have hlt : t1 / 10000 < t2 / 10000 := by
      have h1 : (t1 + 10000) / 10000 = t1 / 10000 + 1 := Nat.add_div_right t1 (by norm_num)
      have h2 : (t1 + 10000) / 10000 ≤ t2 / 10000 := Nat.div_le_div_right h
      omega
    have hne : ((t1 / 10000 : Nat) : Int) - 175200000 ≠ ((t2 / 10000 : Nat) : Int) - 175200000 := by
      omega
    unfold generateDevRevision at heq
    exact hne (intToDecStr_injective (string_append_cancel_right heq))

/-- C8 witness: times 3 ms and 4 ms share a tick and a revision string; times
0 ms and 10000 ms are a full tick apart and get different revision strings. -/
theorem C8_dev_revision_witness :
    generateDevRevision 3 = generateDevRevision 4
    ∧ generateDevRevision 0 ≠ generateDevRevision 10000 :=
  ⟨(C8_dev_revision 3 4).2.1 (by decide), (C8_dev_revision 0 10000).2.2 (by decide)⟩

end PlatformOsTool
